import Mathlib

/-!
Verification of the go-ccip-read repository: a shallow embedding of the
signature-to-ABI compiler, selector dispatch registry and request pipeline
(`resolver.go` and the signature parser), together with theorems settling
the specification claims.

Strings are modelled as `List Char`, Go byte slices as `List Nat`, Go maps
as association lists with first-match lookup and cons-insert (observationally
the Go overwrite semantics), and fallible Go functions as `Option`/`Except`.
Out-of-range Go slice indexing is modelled by an explicit `panic` outcome.
External go-ethereum capabilities (ABI codec, keccak selector hashing,
address parsing) are modelled as parameters or as fixed deterministic
stand-ins, as the spec treats them as opaque library capabilities.
-/

set_option maxRecDepth 4000

namespace Ccip

/-! ## Character classes of the Go regular expression

The source pattern is
`function\s+(?<functionName>[a-zA-Z]{1}[a-zA-Z0-9\_]+)\s*\((?<input>[a-zA-Z0-9\s\,]*)\)\s+(?<mutability>pure|view)\s*returns\s+\((?<output>[a-zA-Z0-9\s\,]*)\)`.
RE2's `\s` is the five ASCII whitespace characters. -/

def isWS (c : Char) : Bool :=
  c = ' ' || c = '\t' || c = '\n' || c = '\x0c' || c = '\r'

def isAlpha (c : Char) : Bool :=
  ('a' ≤ c && c ≤ 'z') || ('A' ≤ c && c ≤ 'Z')

def isDigit (c : Char) : Bool :=
  '0' ≤ c && c ≤ '9'

def isNameChar (c : Char) : Bool :=
  isAlpha c || isDigit c || c = '_'

def isParamChar (c : Char) : Bool :=
  isAlpha c || isDigit c || isWS c || c = ','

/-! ## The regex matcher

The pattern has the property that every pair of adjacent constructs has
disjoint character sets, so Go's (Perl-style, leftmost-first, greedy)
matching of this particular pattern is equivalent to deterministic
maximal-munch matching tried at every start position from the left.
`matchAt` matches the pattern anchored at the head of the list;
`findMatch` models the unanchored `MatchString`/`FindStringSubmatch`. -/

def funcKw : List Char := "function".toList

def returnsKw : List Char := "returns".toList

/-- Match a literal; on success return the rest of the input. -/
def lit : List Char → List Char → Option (List Char)
  | [], s => some s
  | _ :: _, [] => none
  | l :: ls, c :: cs => if c = l then lit ls cs else none

/-- `\s+`: at least one whitespace character, greedy. -/
def wsPlus : List Char → Option (List Char)
  | [] => none
  | c :: r => if isWS c then some (r.dropWhile isWS) else none

/-- `[a-zA-Z]{1}[a-zA-Z0-9_]+`: the captured function name and the rest. -/
def nameP : List Char → Option (List Char × List Char)
  | [] => none
  | c :: rest =>
    if isAlpha c then
      let nm := rest.takeWhile isNameChar
      if nm = [] then none else some (c :: nm, rest.dropWhile isNameChar)
    else none

/-- Match a single literal character; on success return the rest. -/
def charP (c : Char) : List Char → Option (List Char)
  | [] => none
  | d :: r => if d = c then some r else none

/-- `pure|view`: the captured mutability and the rest. -/
def tryMut (s : List Char) : Option (List Char × List Char) :=
  match lit "pure".toList s with
  | some r => some ("pure".toList, r)
  | none =>
    match lit "view".toList s with
    | some r => some ("view".toList, r)
    | none => none

/-- The four captured groups of the function pattern. -/
structure FnMatch where
  functionName : List Char
  input : List Char
  mutability : List Char
  output : List Char
deriving DecidableEq

/-- Match the whole function pattern anchored at the head of `s`. -/
def matchAt (s : List Char) : Option FnMatch :=
  (lit funcKw s).bind fun s1 =>
  (wsPlus s1).bind fun s2 =>
  (nameP s2).bind fun p3 =>
  (charP '(' (p3.2.dropWhile isWS)).bind fun s5 =>
  (charP ')' (s5.dropWhile isParamChar)).bind fun s7 =>
  (wsPlus s7).bind fun s8 =>
  (tryMut s8).bind fun pm =>
  (lit returnsKw (pm.2.dropWhile isWS)).bind fun s11 =>
  (wsPlus s11).bind fun s12 =>
  (charP '(' s12).bind fun s13 =>
  (charP ')' (s13.dropWhile isParamChar)).bind fun _ =>
  some ⟨p3.1, s5.takeWhile isParamChar, pm.1, s13.takeWhile isParamChar⟩

/-- Leftmost unanchored match, as Go's `FindStringSubmatch`. -/
def findMatch : List Char → Option FnMatch
  | [] => none
  | c :: rest =>
    match matchAt (c :: rest) with
    | some m => some m
    | none => findMatch rest

/-! ## parseParameters -/

/-- Go `unicode.IsSpace` restricted to ASCII, as used by `strings.TrimSpace`
and `strings.Fields` on the ASCII strings this parser produces. -/
def isSpaceGo (c : Char) : Bool :=
  c = ' ' || c = '\t' || c = '\n' || c = '\x0b' || c = '\x0c' || c = '\r'

/-- Go `strings.TrimSpace`. -/
def trimSpace (s : List Char) : List Char :=
  (((s.dropWhile isSpaceGo).reverse).dropWhile isSpaceGo).reverse

def fieldsAux : List Char → List Char → List (List Char)
  | acc, [] => if acc = [] then [] else [acc.reverse]
  | acc, c :: rest =>
    if isSpaceGo c then
      if acc = [] then fieldsAux [] rest else acc.reverse :: fieldsAux [] rest
    else fieldsAux (c :: acc) rest

/-- Go `strings.Fields`: split around runs of whitespace. -/
def fields (s : List Char) : List (List Char) :=
  fieldsAux [] s

/-- Go `strings.Split(s, ",")`. -/
def splitComma : List Char → List (List Char)
  | [] => [[]]
  | c :: rest =>
    if c = ',' then [] :: splitComma rest
    else
      match splitComma rest with
      | [] => [[c]]
      | g :: gs => (c :: g) :: gs

/-- Go `strings.Join`-style inverse of `splitComma`, used to state theorems
about parameter lists given as their comma-separated entries. -/
def joinComma : List (List Char) → List Char
  | [] => []
  | [x] => x
  | x :: xs => x ++ ',' :: joinComma xs

/-- The Go source's `paramNames = "abcdefghijklmnopqrstuvwxyz"`. -/
def paramNamesL : List Char := "abcdefghijklmnopqrstuvwxyz".toList

/-- `abi.Argument` restricted to the fields the source populates:
the parameter name and the raw type token handed to `abi.NewType`. -/
structure Argument where
  name : List Char
  type : List Char
deriving DecidableEq

/-- Errors of the signature parser: `ErrInvalidFunctionSignature`,
`"invalid parameter format: %s"` and `"invalid parameter type: %s"`
(Go wraps the latter two with a context message that preserves the kind). -/
inductive ParseErr
  | invalidSignature
  | invalidParamFormat (param : List Char)
  | invalidParameterType (tok : List Char)
deriving DecidableEq

/-- Result of `parseParameters`: Go's `paramNames[i : i+1]` slice panics when
`i+1 > 26`, which is modelled by the explicit `panic` outcome. -/
inductive PPRes
  | panic
  | err (e : ParseErr)
  | ok (args : List Argument)
deriving DecidableEq

/-- The loop body of Go `parseParameters`, with `i` the `range` index over the
split entries. `validType` is the external ABI type system (`abi.NewType`
succeeding on the token). -/
def parseEntries (validType : List Char → Bool) : Nat → List (List Char) → PPRes
  | _, [] => .ok []
  | i, e :: rest =>
    if trimSpace e = [] then parseEntries validType (i + 1) rest
    else
      match fields (trimSpace e) with
      | [t] =>
        if 26 < i + 1 then .panic
        else if validType t then
          match parseEntries validType (i + 1) rest with
          | .ok args => .ok (⟨(paramNamesL.drop i).take 1, t⟩ :: args)
          | r => r
        else .err (.invalidParameterType t)
      | [t, n] =>
        if 26 < i + 1 then .panic
        else if validType t then
          match parseEntries validType (i + 1) rest with
          | .ok args => .ok (⟨n, t⟩ :: args)
          | r => r
        else .err (.invalidParameterType t)
      | _ => .err (.invalidParamFormat (trimSpace e))

/-- Go `parseParameters`. -/
def parseParamsGo (validType : List Char → Bool) (paramStr : List Char) : PPRes :=
  parseEntries validType 0 (splitComma paramStr)

/-! ## ParseFunction -/

/-- The fields of `abi.Method` the source populates and uses. -/
structure Method where
  name : List Char
  mutability : List Char
  inputs : List Argument
  outputs : List Argument
deriving DecidableEq

/-- Result of `ParseFunction` (panic propagated from `parseParameters`). -/
inductive PFRes
  | panic
  | err (e : ParseErr)
  | ok (m : Method)
deriving DecidableEq

/-- Go `ParseFunction`. -/
def ParseFunctionGo (validType : List Char → Bool) (s : List Char) : PFRes :=
  match findMatch s with
  | none => .err .invalidSignature
  | some fm =>
    match parseParamsGo validType fm.input with
    | .panic => .panic
    | .err e => .err e
    | .ok ins =>
      match parseParamsGo validType fm.output with
      | .panic => .panic
      | .err e => .err e
      | .ok outs => .ok ⟨fm.functionName, fm.mutability, ins, outs⟩

/-- Models the external ABI type system (`abi.NewType` succeeding), restricted
to the elementary type tokens exercised in this development. The general
theorems are parameterized over an arbitrary `validType`; this instance is
used for concrete witnesses and counterexamples. -/
def abiTypeOk (t : List Char) : Bool :=
  t = "uint256".toList || t = "bytes32".toList || t = "address".toList || t = "string".toList

example : ParseFunctionGo abiTypeOk "function addr(bytes32 namehash) view returns (address)".toList
    = .ok ⟨"addr".toList, "view".toList,
        [⟨"namehash".toList, "bytes32".toList⟩], [⟨"a".toList, "address".toList⟩]⟩ := by
  decide

example : ParseFunctionGo abiTypeOk "garbage".toList = .err .invalidSignature := by decide

/-! ## Selector computation

`abi.NewMethod` computes `method.ID` as the first 4 bytes of the keccak256
hash of the canonical signature `name(type1,type2,...)`, and `Handle` reads it
back as `binary.BigEndian.Uint32(method.ID)`. -/

/-- Models the external ABI hashing capability
`selector(canonicalSignature) -> 4 bytes` (keccak256 prefix read as a
big-endian `uint32`): a fixed deterministic 32-bit function of the canonical
signature string. The claims depend only on it being a deterministic pure
function of the canonical signature, never on its concrete values. -/
def keccakSel (s : List Char) : Nat :=
  s.foldl (fun a c => (a * 31 + c.toNat) % 4294967296) 7

/-- The canonical signature `name(type1,type2,...)` built by `abi.NewMethod`
from the method name and the input types. -/
def methodSig (m : Method) : List Char :=
  m.name ++ '(' :: joinComma (m.inputs.map (·.type)) ++ [')']

/-- `binary.BigEndian.Uint32(method.ID)` for the parsed method. -/
def methodSelector (m : Method) : Nat :=
  keccakSel (methodSig m)

/-- The selector a signature string registers under (0 if it fails to parse);
used only to state concrete theorems. -/
def selectorOfSig (validType : List Char → Bool) (sig : List Char) : Nat :=
  match ParseFunctionGo validType sig with
  | .ok m => methodSelector m
  | _ => 0

/-! ## Variables and bound requests -/

/-- The source's `Variable` struct (`Name`, `Type`, `Value`); the decoded ABI
value type `interface\x7b\x7d` is an opaque type parameter `V`. -/
structure Variable (V : Type) where
  name : List Char
  type : List Char
  value : V
deriving DecidableEq

/-- The loop of `CCIPReadRequest.Var`: first match in declaration order, the
Go `(interface\x7b\x7d, bool)` pair modelled as `Option`. -/
def varLookup {V : Type} : List (Variable V) → List Char → Option V
  | [], _ => none
  | v :: rest, n => if v.name = n then some v.value else varLookup rest n

/-- The source's `CCIPReadRequest`. -/
structure CCIPReadRequest (V : Type) where
  method : Method
  input : List (Variable V)

/-- `CCIPReadHandler`: handlers return output values or an error message. -/
def CCIPHandler (V : Type) : Type :=
  CCIPReadRequest V → Except (List Char) (List V)

/-! ## The resolver -/

/-- The source's `CCIPReadResolver`. The Go `map[uint32]registeredHandler` is
an association list with first-match lookup and cons insertion (cons shadows,
which is observationally the Go map overwrite). `senderValidator` returns
`true` for a `nil` error (accept); addresses are 160-bit naturals. -/
structure Resolver (V H : Type) where
  handlers : List (Nat × Method × H)
  senderValidator : Option (Nat → Bool)
  outputEncoder : Option (List V → Option (List Nat))

/-- Go map lookup `r.handlers[k]`. -/
def mapGet {α : Type} (k : Nat) : List (Nat × α) → Option α
  | [] => none
  | (k2, v) :: rest => if k2 = k then some v else mapGet k rest

/-- Result of `Handle` (registration): error, new resolver state, or a panic
propagated from `parseParameters`. -/
inductive HandleResult (V H : Type)
  | panic
  | err (e : ParseErr)
  | ok (r : Resolver V H)

/-- Go `CCIPReadResolver.Handle`. -/
def Handle {V H : Type} (validType : List Char → Bool) (r : Resolver V H)
    (sig : List Char) (handler : H) : HandleResult V H :=
  match ParseFunctionGo validType sig with
  | .panic => .panic
  | .err e => .err e
  | .ok m => .ok { r with handlers := (methodSelector m, m, handler) :: r.handlers }

/-- The loop inside the `Gateways` option's validator. Note the Go source
returns `nil` both inside the loop on a match and after the loop. -/
def gatewaysLoop : List Nat → Nat → Bool
  | [], _ => true
  | gw :: rest, sender => if sender = gw then true else gatewaysLoop rest sender

/-- The sender validator installed by the `Gateways` option. -/
def gatewaysValidator (gws : List Nat) : Nat → Bool :=
  fun sender => gatewaysLoop gws sender

/-- The `Gateways(...)` functional option. -/
def Gateways {V H : Type} (gws : List Nat) : Resolver V H → Resolver V H :=
  fun r => { r with senderValidator := some (gatewaysValidator gws) }

/-- The `GatewayValidator(...)` functional option. -/
def GatewayValidator {V H : Type} (v : Nat → Bool) : Resolver V H → Resolver V H :=
  fun r => { r with senderValidator := some v }

/-- The `OutputEncoding(...)` functional option. -/
def OutputEncoding {V H : Type} (enc : List V → Option (List Nat)) :
    Resolver V H → Resolver V H :=
  fun r => { r with outputEncoder := some enc }

/-- Go `NewCCIPReadResolver(options...)`. -/
def NewCCIPReadResolver {V H : Type} (opts : List (Resolver V H → Resolver V H)) :
    Resolver V H :=
  opts.foldl (fun r o => o r) ⟨[], none, none⟩

/-! ## Hex and byte helpers (go-ethereum hexutil / encoding/binary) -/

def hexVal (c : Char) : Option Nat :=
  if '0' ≤ c ∧ c ≤ '9' then some (c.toNat - '0'.toNat)
  else if 'a' ≤ c ∧ c ≤ 'f' then some (c.toNat - 'a'.toNat + 10)
  else if 'A' ≤ c ∧ c ≤ 'F' then some (c.toNat - 'A'.toNat + 10)
  else none

def hexBytes : List Char → Option (List Nat)
  | [] => some []
  | [_] => none
  | c1 :: c2 :: rest =>
    match hexVal c1, hexVal c2, hexBytes rest with
    | some a, some b, some bs => some ((a * 16 + b) :: bs)
    | _, _, _ => none

/-- go-ethereum `hexutil.Decode`: requires a `0x`/`0X` prefix, an even number
of hex digits, and rejects the empty string and non-hex characters. -/
def hexDecode : List Char → Option (List Nat)
  | '0' :: 'x' :: rest => hexBytes rest
  | '0' :: 'X' :: rest => hexBytes rest
  | _ => none

def hexDigitChar (n : Nat) : Char :=
  "0123456789abcdef".toList.getD n '0'

/-- go-ethereum `hexutil.Encode` (lower-case digits, `0x` prefix). -/
def hexEncode (bs : List Nat) : List Char :=
  '0' :: 'x' :: bs.foldr (fun b acc => hexDigitChar (b / 16) :: hexDigitChar (b % 16) :: acc) []

/-- Models the external go-ethereum capability `common.HexToAddress`: a total
deterministic map from the sender string to a 160-bit address. The claims
depend only on totality and determinism, never on concrete outputs. -/
def hexToAddress (s : List Char) : Nat :=
  s.foldl (fun a c => match hexVal c with | some v => (a * 16 + v) % 2 ^ 160 | none => a) 0

/-- `binary.BigEndian.Uint32` of a 4-byte slice. -/
def beUint32 : List Nat → Nat
  | [b0, b1, b2, b3] => ((b0 * 256 + b1) * 256 + b2) * 256 + b3
  | _ => 0

/-! ## The request pipeline (ServeHTTP) -/

/-- The decoded JSON envelope `HttpCCIPReadRequest`; an absent `sender` is the
empty string, as in Go. -/
structure HttpReq where
  data : List Char
  sender : List Char

/-- The external ABI codec capability: `abi.Arguments.UnpackValues` and
`abi.Arguments.PackValues` against a type list. -/
structure AbiCodec (V : Type) where
  unpackValues : List Argument → List Nat → Except (List Char) (List V)
  packValues : List Argument → List V → Except (List Char) (List Nat)

/-- The terminal responses `ServeHTTP` can produce after the JSON envelope has
been decoded, one constructor per `http.Error` site plus the 200 response. -/
inductive Outcome
  | unauthorizedSender
  | invalidDataField
  | dataFieldTooShort
  | functionNotFound
  | unpackFailed
  | handlerFailed (msg : List Char)
  | packFailed
  | ok (body : List Char)
deriving DecidableEq

/-- The HTTP status `ServeHTTP` attaches to each outcome. -/
def statusOf : Outcome → Nat
  | .unauthorizedSender => 401
  | .invalidDataField => 400
  | .dataFieldTooShort => 400
  | .functionNotFound => 404
  | .unpackFailed => 400
  | .handlerFailed _ => 500
  | .packFailed => 500
  | .ok _ => 200

/-- Builds the `inputVars` slice of `ServeHTTP`: `Name` from the descriptor,
`Type` left at its Go zero value, `Value` the decoded value. The external
codec returns exactly one value per input parameter. -/
def bindInputs {V : Type} (params : List Argument) (vals : List V) : List (Variable V) :=
  List.zipWith (fun p v => ⟨p.name, [], v⟩) params vals

/-- The tail of `ServeHTTP` after the sender-validation block (source lines
134-204): hex decode, length check, selector lookup, input unpack, handler
invocation, output pack, response. Note the source never reads
`r.outputEncoder` anywhere in this sequence. -/
def serveAfterAuth {V : Type} (codec : AbiCodec V) (r : Resolver V (CCIPHandler V))
    (req : HttpReq) : Outcome :=
  match hexDecode req.data with
  | none => .invalidDataField
  | some data =>
    if data.length < 4 then .dataFieldTooShort
    else
      match mapGet (beUint32 (data.take 4)) r.handlers with
      | none => .functionNotFound
      | some (method, handler) =>
        match codec.unpackValues method.inputs (data.drop 4) with
        | .error _ => .unpackFailed
        | .ok inputs =>
          match handler ⟨method, bindInputs method.inputs inputs⟩ with
          | .error msg => .handlerFailed msg
          | .ok outputs =>
            match codec.packValues method.outputs outputs with
            | .error _ => .packFailed
            | .ok outputData => .ok (hexEncode outputData)

/-- Go `CCIPReadResolver.ServeHTTP` from the point where the JSON envelope has
been decoded (method check, body read and JSON unmarshalling are transport
glue, out of scope per the spec). Mirrors the source order: the
sender-validation block (lines 123-132) runs first, then the rest of the
pipeline (`serveAfterAuth`). -/
def serveCore {V : Type} (codec : AbiCodec V) (r : Resolver V (CCIPHandler V))
    (req : HttpReq) : Outcome :=
  if (match r.senderValidator with
      | some validator =>
        if req.sender = [] then false else !(validator (hexToAddress req.sender))
      | none => false) then
    .unauthorizedSender
  else serveAfterAuth codec r req

/-! ## Helper predicates used to state general theorems -/

/-- A well-formed single-token (hence unnamed) parameter entry: non-empty,
comma-free, whitespace-trim-stable, a single field, with a type the external
type system accepts. -/
def UnnamedTok (validType : List Char → Bool) (e : List Char) : Prop :=
  e ≠ [] ∧ (∀ c ∈ e, c ≠ ',') ∧ trimSpace e = e ∧ fields e = [e] ∧ validType e = true

instance (validType : List Char → Bool) (e : List Char) :
    Decidable (UnnamedTok validType e) := by
  unfold UnnamedTok; infer_instance

/-- A parameter entry the `parseParameters` loop traverses without failing:
trims to empty (skipped), or has one or two fields with a valid type token. -/
def wfEntryB (validType : List Char → Bool) (e : List Char) : Bool :=
  trimSpace e == [] ||
    (match fields (trimSpace e) with
     | [t] => validType t
     | [t, _] => validType t
     | _ => false)

/-- The arguments the loop accumulates over a clean run of entries starting at
index `i` (mirrors the loop's per-entry action, used to state its behaviour on
a well-formed prefix). -/
def prefixArgs : Nat → List (List Char) → List Argument
  | _, [] => []
  | i, e :: rest =>
    if trimSpace e = [] then prefixArgs (i + 1) rest
    else
      match fields (trimSpace e) with
      | [t] => ⟨(paramNamesL.drop i).take 1, t⟩ :: prefixArgs (i + 1) rest
      | [t, n] => ⟨n, t⟩ :: prefixArgs (i + 1) rest
      | _ => []

/-- Default names for a list of unnamed type tokens, starting at zero-based
position `i` of the entry within its own list: token number `i` is named with
the single letter `paramNames[i]`. -/
def defaultArgsFrom : Nat → List (List Char) → List Argument
  | _, [] => []
  | i, t :: ts => ⟨(paramNamesL.drop i).take 1, t⟩ :: defaultArgsFrom (i + 1) ts

/-- The request passes (or skips) sender validation: whenever a validator is
configured and the sender is non-empty, the validator accepts it. -/
def passesValidation {V H : Type} (r : Resolver V H) (req : HttpReq) : Prop :=
  ∀ val, r.senderValidator = some val → req.sender ≠ [] →
    val (hexToAddress req.sender) = true

/-! ## Lemmas about the matcher -/

theorem lit_eq_append (l : List Char) : ∀ s r, lit l s = some r → s = l ++ r := by
  induction l with
  | nil => intro s r h; simp only [lit, Option.some.injEq] at h; simp [h]
  | cons c cs ih =>
    intro s r h
    cases s with
    | nil => simp [lit] at h
    | cons d ds =>
      simp only [lit] at h
      by_cases hd : d = c
      · rw [if_pos hd] at h
        have := ih ds r h
        simp [hd, this]
      · rw [if_neg hd] at h; exact absurd h (by simp)

theorem wsPlus_suffix {s r : List Char} (h : wsPlus s = some r) : r <:+ s := by
  cases s with
  | nil => simp [wsPlus] at h
  | cons c cs =>
    simp only [wsPlus] at h
    by_cases hc : isWS c
    · rw [if_pos hc] at h
      simp only [Option.some.injEq] at h
      exact (h ▸ List.dropWhile_suffix isWS).trans (List.suffix_cons c cs)
    · rw [if_neg hc] at h; exact absurd h (by simp)

theorem nameP_snd_suffix {s : List Char} {p : List Char × List Char}
    (h : nameP s = some p) : p.2 <:+ s := by
  cases s with
  | nil => simp [nameP] at h
  | cons c cs =>
    simp only [nameP] at h
    by_cases hc : isAlpha c
    · rw [if_pos hc] at h
      by_cases hn : cs.takeWhile isNameChar = []
      · rw [if_pos hn] at h; exact absurd h (by simp)
      · rw [if_neg hn] at h
        simp only [Option.some.injEq] at h
        have : p.2 = cs.dropWhile isNameChar := by rw [← h]
        exact (this ▸ List.dropWhile_suffix isNameChar).trans (List.suffix_cons c cs)
    · rw [if_neg hc] at h; exact absurd h (by simp)

theorem charP_suffix {c : Char} {s r : List Char} (h : charP c s = some r) : r <:+ s := by
  cases s with
  | nil => simp [charP] at h
  | cons d ds =>
    simp only [charP] at h
    by_cases hd : d = c
    · rw [if_pos hd] at h
      simp only [Option.some.injEq] at h
      exact h ▸ List.suffix_cons d ds
    · rw [if_neg hd] at h; exact absurd h (by simp)

theorem tryMut_snd_suffix {s : List Char} {pm : List Char × List Char}
    (h : tryMut s = some pm) : pm.2 <:+ s := by
  simp only [tryMut] at h
  cases hp : lit "pure".toList s with
  | some r =>
    rw [hp] at h
    simp only [Option.some.injEq] at h
    have : pm.2 = r := by rw [← h]
    exact ⟨"pure".toList, (this ▸ lit_eq_append _ s r hp).symm⟩
  | none =>
    rw [hp] at h
    cases hv : lit "view".toList s with
    | some r =>
      rw [hv] at h
      simp only [Option.some.injEq] at h
      have : pm.2 = r := by rw [← h]
      exact ⟨"view".toList, (this ▸ lit_eq_append _ s r hv).symm⟩
    | none => rw [hv] at h; exact absurd h (by simp)

theorem matchAt_keywords {s : List Char} {fm : FnMatch} (h : matchAt s = some fm) :
    funcKw <+: s ∧ returnsKw <:+: s := by
  simp only [matchAt, Option.bind_eq_some, Option.some.injEq] at h
  obtain ⟨s1, h1, s2, h2, p3, h3, s5, h4, s7, h5, s8, h6, pm, h7,
    s11, h8, s12, h9, s13, h10, s14, h11, hfm⟩ := h
  constructor
  · exact ⟨s1, (lit_eq_append funcKw s s1 h1).symm⟩
  · have hs1 : s1 <:+ s := ⟨funcKw, (lit_eq_append funcKw s s1 h1).symm⟩
    have hs2 : s2 <:+ s1 := wsPlus_suffix h2
    have hp3 : p3.2 <:+ s2 := nameP_snd_suffix h3
    have hd1 : p3.2.dropWhile isWS <:+ p3.2 := List.dropWhile_suffix isWS
    have hs5 : s5 <:+ p3.2.dropWhile isWS := charP_suffix h4
    have hd2 : s5.dropWhile isParamChar <:+ s5 := List.dropWhile_suffix isParamChar
    have hs7 : s7 <:+ s5.dropWhile isParamChar := charP_suffix h5
    have hs8 : s8 <:+ s7 := wsPlus_suffix h6
    have hpm : pm.2 <:+ s8 := tryMut_snd_suffix h7
    have hd3 : pm.2.dropWhile isWS <:+ pm.2 := List.dropWhile_suffix isWS
    have hx : pm.2.dropWhile isWS <:+ s :=
      (((((((((hd3.trans hpm).trans hs8).trans hs7).trans hd2).trans hs5).trans
        hd1).trans hp3).trans hs2).trans hs1)
    have hpre : returnsKw <+: pm.2.dropWhile isWS :=
      ⟨s11, (lit_eq_append returnsKw _ s11 h8).symm⟩
    exact hpre.isInfix.trans hx.isInfix

theorem findMatch_some_suffix {s : List Char} {fm : FnMatch}
    (h : findMatch s = some fm) : ∃ t, t <:+ s ∧ matchAt t = some fm := by
  induction s with
  | nil => simp [findMatch] at h
  | cons c rest ih =>
    rw [findMatch] at h
    cases hm : matchAt (c :: rest) with
    | some m =>
      rw [hm] at h
      simp only [Option.some.injEq] at h
      exact ⟨c :: rest, List.suffix_refl _, hm ▸ h ▸ rfl⟩
    | none =>
      rw [hm] at h
      obtain ⟨t, hts, hmt⟩ := ih h
      exact ⟨t, hts.trans (List.suffix_cons c rest), hmt⟩

theorem findMatch_keywords {s : List Char} {fm : FnMatch}
    (h : findMatch s = some fm) : funcKw <:+: s ∧ returnsKw <:+: s := by
  obtain ⟨t, hts, hmt⟩ := findMatch_some_suffix h
  obtain ⟨hf, hr⟩ := matchAt_keywords hmt
  exact ⟨hf.isInfix.trans hts.isInfix, hr.trans hts.isInfix⟩

/-! ## Lemmas about comma splitting -/

theorem splitComma_no_comma : ∀ t : List Char, (∀ c ∈ t, c ≠ ',') →
    splitComma t = [t] := by
  intro t
  induction t with
  | nil => intro _; rfl
  | cons c rest ih =>
    intro h
    have hc : ¬(c = ',') := h c (by simp)
    rw [splitComma, if_neg hc, ih (fun d hd => h d (by simp [hd]))]

theorem splitComma_append : ∀ t s : List Char, (∀ c ∈ t, c ≠ ',') →
    splitComma (t ++ ',' :: s) = t :: splitComma s := by
  intro t
  induction t with
  | nil => intro s _; simp [splitComma]
  | cons c rest ih =>
    intro s h
    have hc : ¬(c = ',') := h c (by simp)
    rw [List.cons_append, splitComma, if_neg hc, ih s (fun d hd => h d (by simp [hd]))]

theorem joinComma_split : ∀ ts : List (List Char), ts ≠ [] →
    (∀ e ∈ ts, ∀ c ∈ e, c ≠ ',') → splitComma (joinComma ts) = ts := by
  intro ts
  induction ts with
  | nil => intro h; exact absurd rfl h
  | cons x rest ih =>
    intro _ h
    cases rest with
    | nil => exact splitComma_no_comma x (h x (by simp))
    | cons y rest2 =>
      rw [show joinComma (x :: y :: rest2) = x ++ ',' :: joinComma (y :: rest2) from rfl,
        splitComma_append x _ (h x (by simp)),
        ih (by simp) (fun e he c hc => h e (by simp [he]) c hc)]

/-! ## The clean-prefix lemma for the parameter loop -/

theorem parseEntries_prefix (validType : List Char → Bool) :
    ∀ (ts : List (List Char)) (i : Nat) (rest : List (List Char)),
    (∀ e ∈ ts, wfEntryB validType e = true) → i + ts.length ≤ 26 →
    parseEntries validType i (ts ++ rest) =
      match parseEntries validType (i + ts.length) rest with
      | .ok args => .ok (prefixArgs i ts ++ args)
      | r => r := by
  intro ts
  induction ts with
  | nil =>
    intro i rest _ _
    cases h : parseEntries validType i rest with
    | ok args => simp [h, prefixArgs]
    | err e => simp [h]
    | panic => simp [h]
  | cons e ts ih =>
    intro i rest hwf hle
    have hwe : wfEntryB validType e = true := hwf e (by simp)
    have hwts : ∀ x ∈ ts, wfEntryB validType x = true :=
      fun x hx => hwf x (by simp [hx])
    have hle2 : i + 1 + ts.length ≤ 26 := by
      simp only [List.length_cons] at hle; omega
    have hlen : i + (e :: ts).length = i + 1 + ts.length := by
      simp only [List.length_cons]; omega
    rw [hlen]
    by_cases hp : trimSpace e = []
    · have h1 : parseEntries validType i ((e :: ts) ++ rest) =
          parseEntries validType (i + 1) (ts ++ rest) := by
        rw [List.cons_append, parseEntries, if_pos hp]
      have h2 : prefixArgs i (e :: ts) = prefixArgs (i + 1) ts := by
        rw [prefixArgs, if_pos hp]
      rw [h1, h2, ih (i + 1) rest hwts hle2]
    · have hnp : ¬(26 < i + 1) := by
        simp only [List.length_cons] at hle; omega
      rw [wfEntryB] at hwe
      have hne : ¬((trimSpace e == []) = true) := by
        simp only [beq_iff_eq]; exact hp
      rw [Bool.or_eq_true] at hwe
      rcases hwe with hwe | hwe
      · exact absurd hwe hne
      · cases hf : fields (trimSpace e) with
        | nil => rw [hf] at hwe; simp at hwe
        | cons t l2 =>
          cases l2 with
          | nil =>
            rw [hf] at hwe
            have hvt : validType t = true := by simpa using hwe
            have h1 : parseEntries validType i ((e :: ts) ++ rest) =
                match parseEntries validType (i + 1) (ts ++ rest) with
                | .ok args => .ok (⟨(paramNamesL.drop i).take 1, t⟩ :: args)
                | r => r := by
              rw [List.cons_append, parseEntries, if_neg hp, hf]
              simp [hnp, hvt]
            have h2 : prefixArgs i (e :: ts) =
                ⟨(paramNamesL.drop i).take 1, t⟩ :: prefixArgs (i + 1) ts := by
              rw [prefixArgs, if_neg hp, hf]
            rw [h1, h2, ih (i + 1) rest hwts hle2]
            cases hres : parseEntries validType (i + 1 + ts.length) rest with
            | ok args => simp
            | err e2 => simp
            | panic => simp
          | cons n l3 =>
            cases l3 with
            | nil =>
              rw [hf] at hwe
              have hvt : validType t = true := by simpa using hwe
              have h1 : parseEntries validType i ((e :: ts) ++ rest) =
                  match parseEntries validType (i + 1) (ts ++ rest) with
                  | .ok args => .ok (⟨n, t⟩ :: args)
                  | r => r := by
                rw [List.cons_append, parseEntries, if_neg hp, hf]
                simp [hnp, hvt]
              have h2 : prefixArgs i (e :: ts) = ⟨n, t⟩ :: prefixArgs (i + 1) ts := by
                rw [prefixArgs, if_neg hp, hf]
              rw [h1, h2, ih (i + 1) rest hwts hle2]
              cases hres : parseEntries validType (i + 1 + ts.length) rest with
              | ok args => simp
              | err e2 => simp
              | panic => simp
            | cons m l4 => rw [hf] at hwe; simp at hwe

theorem prefixArgs_unnamed (validType : List Char → Bool) :
    ∀ (ts : List (List Char)) (i : Nat), (∀ e ∈ ts, UnnamedTok validType e) →
    prefixArgs i ts = defaultArgsFrom i ts := by
  intro ts
  induction ts with
  | nil => intro i _; rfl
  | cons e ts ih =>
    intro i h
    obtain ⟨hne, _, htr, hfe, _⟩ := h e (by simp)
    rw [prefixArgs, defaultArgsFrom]
    simp only [htr, hfe]
    rw [if_neg hne, ih (i + 1) (fun x hx => h x (by simp [hx]))]

theorem unnamedTok_wfEntryB (validType : List Char → Bool) {e : List Char}
    (h : UnnamedTok validType e) : wfEntryB validType e = true := by
  obtain ⟨hne, _, htr, hfe, hvt⟩ := h
  rw [wfEntryB, htr, hfe]
  simp [hvt]

/-! ## The Gateways validator accepts every sender -/

theorem gatewaysLoop_true : ∀ (gws : List Nat) (a : Nat), gatewaysLoop gws a = true := by
  intro gws
  induction gws with
  | nil => intro a; rfl
  | cons gw rest ih =>
    intro a
    rw [gatewaysLoop]
    by_cases h : a = gw
    · rw [if_pos h]
    · rw [if_neg h]; exact ih a

theorem gatewaysValidator_true (gws : List Nat) (a : Nat) :
    gatewaysValidator gws a = true :=
  gatewaysLoop_true gws a

/-! ## Pipeline anatomy lemmas -/

theorem serveAfterAuth_ne_unauthorized {V : Type} (codec : AbiCodec V)
    (r : Resolver V (CCIPHandler V)) (req : HttpReq) :
    serveAfterAuth codec r req ≠ Outcome.unauthorizedSender := by
  unfold serveAfterAuth
  split
  · exact fun h => Outcome.noConfusion h
  · split
    · exact fun h => Outcome.noConfusion h
    · split
      · exact fun h => Outcome.noConfusion h
      · split
        · exact fun h => Outcome.noConfusion h
        · split
          · exact fun h => Outcome.noConfusion h
          · split
            · exact fun h => Outcome.noConfusion h
            · exact fun h => Outcome.noConfusion h

theorem serveCore_pass {V : Type} (codec : AbiCodec V)
    (r : Resolver V (CCIPHandler V)) (req : HttpReq)
    (h : passesValidation r req) :
    serveCore codec r req = serveAfterAuth codec r req := by
  rw [serveCore]
  have hrej : (match r.senderValidator with
      | some validator =>
        if req.sender = [] then false else !(validator (hexToAddress req.sender))
      | none => false) = false := by
    cases hsv : r.senderValidator with
    | none => rfl
    | some val =>
      show (if req.sender = [] then false else !(val (hexToAddress req.sender))) = false
      by_cases hs : req.sender = []
      · rw [if_pos hs]
      · rw [if_neg hs, h val hsv hs]; rfl
  rw [hrej]
  rfl

theorem serveCore_reject {V : Type} (codec : AbiCodec V)
    (r : Resolver V (CCIPHandler V)) (req : HttpReq) (val : Nat → Bool)
    (hsv : r.senderValidator = some val) (hs : req.sender ≠ [])
    (hval : val (hexToAddress req.sender) = false) :
    serveCore codec r req = Outcome.unauthorizedSender := by
  rw [serveCore, hsv]
  show (if (if req.sender = [] then false else !(val (hexToAddress req.sender))) = true then
      Outcome.unauthorizedSender
    else serveAfterAuth codec r req) = Outcome.unauthorizedSender
  rw [if_neg hs, hval]
  rfl

/-! ## Concrete fixtures -/

/-- A codec whose behaviour is irrelevant to the theorem using it. -/
def trivCodec : AbiCodec Nat :=
  ⟨fun _ _ => .error [], fun _ _ => .error []⟩

/-- A resolver configured through `GatewayValidator` with a reject-all
validator. -/
def rejectAllResolver : Resolver Nat (CCIPHandler Nat) :=
  NewCCIPReadResolver [GatewayValidator (fun _ => false)]

/-- A resolver with no options configured. -/
def noValidatorResolver : Resolver Nat (CCIPHandler Nat) :=
  NewCCIPReadResolver []

def c1method : Method := ⟨"foo".toList, "view".toList, [], []⟩

def c1handler : CCIPHandler Nat := fun _ => .ok []

/-- A codec whose output pack returns the bytes `01 02 03 04`. -/
def c1codec : AbiCodec Nat :=
  ⟨fun _ _ => .ok [], fun _ _ => .ok [1, 2, 3, 4]⟩

/-- A resolver built with `OutputEncoding` configuring an override that would
return the bytes `09 09`, plus one registered handler under the selector of
the request data `0xdeadbeef`. -/
def c1resolver : Resolver Nat (CCIPHandler Nat) :=
  { handlers := [(beUint32 [222, 173, 190, 239], c1method, c1handler)],
    senderValidator := none,
    outputEncoder := some (fun _ => some [9, 9]) }

def c1req : HttpReq := ⟨"0xdeadbeef".toList, []⟩

def c5req : HttpReq := ⟨"0x00".toList, "0x1111".toList⟩

def c9req : HttpReq := ⟨"0xzz".toList, "0x22".toList⟩

/-! ## Claim theorems -/

/-- Claim C1: the claim says a configured `OutputEncoding` override replaces
the default ABI output encode. In the source the option stores the encoder but
`ServeHTTP` never reads `r.outputEncoder` and always calls
`method.Outputs.PackValues`, so the override has no effect on any request
(first conjunct: the pipeline result is identical with the override present or
absent), and a run configured with an override returning `09 09` still answers
with the codec's `01 02 03 04` (second conjunct). -/
theorem c1_output_encoder_ignored :
    (∀ (V : Type) (codec : AbiCodec V) (r : Resolver V (CCIPHandler V))
      (req : HttpReq) (enc : List V → Option (List Nat)),
      serveCore codec { r with outputEncoder := some enc } req =
        serveCore codec { r with outputEncoder := none } req)
    ∧ serveCore c1codec c1resolver c1req = Outcome.ok "0x01020304".toList := by
  constructor
  · intro V codec r req enc
    cases r
    rfl
  · rfl

/-- Claim C3: the claim says a resolver built with the `Gateways` option
rejects every non-listed non-empty sender with 401. In the source the
installed validator's loop falls through to `return nil`, so it accepts every
address (first conjunct) and the pipeline can never answer 401 for a resolver
configured through `Gateways`, whatever the sender (second conjunct). -/
theorem c3_gateways_accepts_every_sender :
    (∀ (gws : List Nat) (a : Nat), gatewaysValidator gws a = true)
    ∧ ∀ (V : Type) (codec : AbiCodec V) (r : Resolver V (CCIPHandler V))
        (req : HttpReq) (gws : List Nat),
        serveCore codec (Gateways gws r) req ≠ Outcome.unauthorizedSender := by
  constructor
  · exact gatewaysValidator_true
  · intro V codec r req gws
    have hpass : passesValidation (Gateways gws r) req := by
      intro val hv _
      cases r
      simp only [Gateways, Option.some.injEq] at hv
      rw [← hv]
      exact gatewaysValidator_true gws _
    rw [serveCore_pass codec _ req hpass]
    exact serveAfterAuth_ne_unauthorized codec _ req

/-- Claim C8: `Var` lookup on a bound request returns the value of the first
parameter (in declaration order) carrying the requested name, and reports
plain absence (`none`, the Go `false` flag) when no parameter has the name;
it is total and never fails. -/
theorem c8_var_first_match_or_none (V : Type) (input : List (Variable V))
    (n : List Char) :
    ((∀ v ∈ input, v.name ≠ n) → varLookup input n = none)
    ∧ (∀ (pre : List (Variable V)) (x : Variable V) (post : List (Variable V)),
        input = pre ++ x :: post → (∀ v ∈ pre, v.name ≠ n) → x.name = n →
        varLookup input n = some x.value) := by
  constructor
  · intro habs
    induction input with
    | nil => rfl
    | cons v rest ih =>
      rw [varLookup, if_neg (habs v (by simp))]
      exact ih (fun w hw => habs w (by simp [hw]))
  · intro pre x post heq hpre hx
    subst heq
    revert hpre
    induction pre with
    | nil =>
      intro _
      rw [List.nil_append, varLookup, if_pos hx]
    | cons v pre2 ih =>
      intro hpre
      rw [List.cons_append, varLookup, if_neg (hpre v (by simp))]
      exact ih (fun w hw => hpre w (by simp [hw]))

/-- Witness for C8 at a concrete bound input list: the duplicate name `a`
resolves to the first value `1`, and the absent name `z` resolves to `none`. -/
theorem c8_witness :
    varLookup [(⟨"a".toList, [], 1⟩ : Variable Nat), ⟨"b".toList, [], 2⟩,
      ⟨"a".toList, [], 3⟩] "z".toList = none
    ∧ varLookup [(⟨"a".toList, [], 1⟩ : Variable Nat), ⟨"b".toList, [], 2⟩,
      ⟨"a".toList, [], 3⟩] "a".toList = some 1 := by
  constructor
  · exact (c8_var_first_match_or_none Nat
      [⟨"a".toList, [], 1⟩, ⟨"b".toList, [], 2⟩, ⟨"a".toList, [], 3⟩]
      "z".toList).1 (by decide)
  · exact (c8_var_first_match_or_none Nat
      [⟨"a".toList, [], 1⟩, ⟨"b".toList, [], 2⟩, ⟨"a".toList, [], 3⟩]
      "a".toList).2 [] ⟨"a".toList, [], 1⟩ [⟨"b".toList, [], 2⟩, ⟨"a".toList, [], 3⟩]
      rfl (by decide) (by decide)

/-- Claim C7, counterexample: with duplicate declared names the round trip
fails. Binding values `10, 20` to two inputs both named `a` and looking up the
second parameter's declared name returns the first value `10`, not `20`. -/
theorem c7_counterexample :
    varLookup (bindInputs
        [(⟨"a".toList, "uint256".toList⟩ : Argument), ⟨"a".toList, "uint256".toList⟩]
        [10, 20]) "a".toList = some 10
    ∧ varLookup (bindInputs
        [(⟨"a".toList, "uint256".toList⟩ : Argument), ⟨"a".toList, "uint256".toList⟩]
        [10, 20]) "a".toList ≠ ([10, 20] : List Nat).get? 1 := by
  constructor
  · rfl
  · decide

/-- Claim C7, amended: the round trip holds for descriptors whose input
parameter names are pairwise distinct: binding a value list of matching length
and looking up each parameter by its declared name returns exactly the values
in order. -/
theorem c7_roundtrip_distinct_names (V : Type) :
    ∀ (params : List Argument) (vals : List V),
    vals.length = params.length →
    params.Pairwise (fun p q => p.name ≠ q.name) →
    ∀ (i : Nat) (p : Argument), params.get? i = some p →
    varLookup (bindInputs params vals) p.name = vals.get? i := by
  intro params
  induction params with
  | nil => intro vals _ _ i p hp; simp at hp
  | cons q ps ih =>
    intro vals hlen hpw i p hp
    cases vals with
    | nil => simp at hlen
    | cons w ws =>
      cases i with
      | zero =>
        simp only [List.get?_cons_zero, Option.some.injEq] at hp
        rw [show bindInputs (q :: ps) (w :: ws) =
          ⟨q.name, [], w⟩ :: bindInputs ps ws from rfl]
        rw [← hp, varLookup, if_pos rfl]
        rfl
      | succ j =>
        simp only [List.get?_cons_succ] at hp
        have hmem : p ∈ ps := by
          have := List.get?_mem hp
          exact this
        have hne : q.name ≠ p.name := (List.pairwise_cons.mp hpw).1 p hmem
        rw [show bindInputs (q :: ps) (w :: ws) =
          ⟨q.name, [], w⟩ :: bindInputs ps ws from rfl]
        rw [varLookup, if_neg hne]
        have hlen2 : ws.length = ps.length := by
          simp only [List.length_cons] at hlen; omega
        exact ih ws hlen2 (List.pairwise_cons.mp hpw).2 j p hp

/-- Witness for C7 amended at a concrete descriptor with distinct names `x`,
`y` and values `3, 4`: both lookups return the bound values in order. -/
theorem c7_witness :
    varLookup (bindInputs
      [(⟨"x".toList, "uint256".toList⟩ : Argument), ⟨"y".toList, "uint256".toList⟩]
      [3, 4]) "x".toList = some 3
    ∧ varLookup (bindInputs
      [(⟨"x".toList, "uint256".toList⟩ : Argument), ⟨"y".toList, "uint256".toList⟩]
      [3, 4]) "y".toList = some 4 := by
  constructor
  · exact c7_roundtrip_distinct_names Nat
      [⟨"x".toList, "uint256".toList⟩, ⟨"y".toList, "uint256".toList⟩] [3, 4]
      rfl (by decide) 0 ⟨"x".toList, "uint256".toList⟩ rfl
  · exact c7_roundtrip_distinct_names Nat
      [⟨"x".toList, "uint256".toList⟩, ⟨"y".toList, "uint256".toList⟩] [3, 4]
      rfl (by decide) 1 ⟨"y".toList, "uint256".toList⟩ rfl

/-- Claim C5, counterexample: a request whose data `0x00` decodes to a single
byte (fewer than 4) but whose non-empty sender is rejected by the configured
validator is answered 401 Unauthorized, not 400 MalformedData: the source runs
sender validation before hex decoding. -/
theorem c5_counterexample :
    hexDecode c5req.data = some [0]
    ∧ serveCore trivCodec rejectAllResolver c5req = Outcome.unauthorizedSender
    ∧ statusOf (serveCore trivCodec rejectAllResolver c5req) ≠ 400 :=
  ⟨rfl, rfl, by decide⟩

/-- Claim C5, amended: sender validation (spec step 3) runs before hex
decoding (spec step 2): for every request whose data field is invalid hex or
decodes to fewer than 4 bytes, if a configured validator rejects the non-empty
sender the response is Failed(401, Unauthorized), not Failed(400,
MalformedData). -/
theorem c5_validation_precedes_decode :
    ∀ (V : Type) (codec : AbiCodec V) (r : Resolver V (CCIPHandler V))
      (req : HttpReq) (val : Nat → Bool),
      r.senderValidator = some val → req.sender ≠ [] →
      val (hexToAddress req.sender) = false →
      (hexDecode req.data = none ∨ ∃ bs, hexDecode req.data = some bs ∧ bs.length < 4) →
      serveCore codec r req = Outcome.unauthorizedSender
      ∧ statusOf (serveCore codec r req) = 401 := by
  intro V codec r req val hsv hs hval _
  have h := serveCore_reject codec r req val hsv hs hval
  exact ⟨h, by rw [h]; rfl⟩

/-- Witness for C5 amended: the reject-all resolver answers 401 for the
short-data request `0x00`. -/
theorem c5_witness :
    serveCore trivCodec rejectAllResolver c5req = Outcome.unauthorizedSender
    ∧ statusOf (serveCore trivCodec rejectAllResolver c5req) = 401 :=
  c5_validation_precedes_decode Nat trivCodec rejectAllResolver c5req
    (fun _ => false) rfl (by decide) rfl (Or.inr ⟨[0], rfl, by decide⟩)

/-- Claim C9, counterexample: a request with non-hex data `0xzz` is not
answered 400 when a configured validator rejects its sender: the response is
401, because sender validation runs before the data checks. -/
theorem c9_counterexample :
    hexDecode c9req.data = none
    ∧ serveCore trivCodec rejectAllResolver c9req = Outcome.unauthorizedSender
    ∧ statusOf (serveCore trivCodec rejectAllResolver c9req) ≠ 400 :=
  ⟨rfl, rfl, by decide⟩

/-- Claim C9, amended: for every request that passes (or skips) sender
validation and whose data field is not valid 0x-prefixed hex (respectively
decodes to fewer than 4 bytes), the pipeline responds 400 invalid-data
(respectively 400 too-short). The statement is universally quantified over the
handler table and the codec, so neither selector lookup nor any handler can
influence the response. -/
theorem c9_malformed_data_400_without_dispatch :
    ∀ (V : Type) (codec : AbiCodec V) (r : Resolver V (CCIPHandler V))
      (req : HttpReq), passesValidation r req →
    (hexDecode req.data = none →
      serveCore codec r req = Outcome.invalidDataField
      ∧ statusOf (serveCore codec r req) = 400)
    ∧ (∀ bs, hexDecode req.data = some bs → bs.length < 4 →
      serveCore codec r req = Outcome.dataFieldTooShort
      ∧ statusOf (serveCore codec r req) = 400) := by
  intro V codec r req hpass
  have hs := serveCore_pass codec r req hpass
  constructor
  · intro hd
    have hafter : serveAfterAuth codec r req = Outcome.invalidDataField := by
      simp only [serveAfterAuth, hd]
    rw [hs, hafter]
    exact ⟨rfl, rfl⟩
  · intro bs hd hlen
    have hafter : serveAfterAuth codec r req = Outcome.dataFieldTooShort := by
      simp only [serveAfterAuth, hd]
      rw [if_pos hlen]
    rw [hs, hafter]
    exact ⟨rfl, rfl⟩

/-- Witness for C9 amended: with no validator configured, the request with
data `0x` (zero bytes) is answered 400 too-short. -/
theorem c9_witness :
    serveCore trivCodec noValidatorResolver ⟨"0x".toList, []⟩ = Outcome.dataFieldTooShort
    ∧ statusOf (serveCore trivCodec noValidatorResolver ⟨"0x".toList, []⟩) = 400 :=
  (c9_malformed_data_400_without_dispatch Nat trivCodec noValidatorResolver
    ⟨"0x".toList, []⟩ (fun val hv _ => Option.noConfusion hv)).2 [] rfl (by decide)

/-! ## C2: duplicate selector handling in the registry -/

def rEmptyNN : Resolver Nat Nat := ⟨[], none, none⟩

def c2sig1 : List Char := "function foo(uint256 bar) view returns (uint256)".toList

def c2sig2 : List Char := "function foo(uint256 baz) view returns (uint256)".toList

/-- The parsed method of `c2sig1`. -/
def c2m1 : Method :=
  ⟨"foo".toList, "view".toList, [⟨"bar".toList, "uint256".toList⟩],
    [⟨"a".toList, "uint256".toList⟩]⟩

/-- The registry after registering `c2sig1` with handler tag 1. -/
def c2r1 : Resolver Nat Nat :=
  match Handle abiTypeOk rEmptyNN c2sig1 1 with
  | .ok r => r
  | _ => rEmptyNN

/-- The registry after additionally registering `c2sig2` with handler tag 2. -/
def c2r2 : Resolver Nat Nat :=
  match Handle abiTypeOk c2r1 c2sig2 2 with
  | .ok r => r
  | _ => c2r1

/-- Claim C2, counterexample: `c2sig1` and `c2sig2` share the canonical
signature `foo(uint256)` and hence the selector, yet the second registration
succeeds (no DuplicateSelector error exists) and afterwards the table answers
lookups for that selector with the second handler, not the first:
last-registered-wins is the observed policy. -/
theorem c2_counterexample :
    Handle abiTypeOk c2r1 c2sig2 2 = HandleResult.ok c2r2
    ∧ selectorOfSig abiTypeOk c2sig1 = selectorOfSig abiTypeOk c2sig2
    ∧ (mapGet (selectorOfSig abiTypeOk c2sig1) c2r1.handlers).map Prod.snd = some 1
    ∧ (mapGet (selectorOfSig abiTypeOk c2sig1) c2r2.handlers).map Prod.snd = some 2 :=
  ⟨rfl, rfl, rfl, rfl⟩

/-- Claim C2, amended: registration performs no duplicate check: whenever the
signature parses, `Handle` succeeds unconditionally and installs the new
(descriptor, handler) pair at the selector, shadowing any previous entry, so
the table thereafter answers that selector with the newly registered pair
(last-registered-wins). -/
theorem c2_last_registration_wins :
    ∀ (V H : Type) (validType : List Char → Bool) (r : Resolver V H)
      (sig : List Char) (hdl : H) (m : Method),
      ParseFunctionGo validType sig = .ok m →
      Handle validType r sig hdl =
        HandleResult.ok { r with handlers := (methodSelector m, m, hdl) :: r.handlers }
      ∧ mapGet (methodSelector m) ((methodSelector m, m, hdl) :: r.handlers) =
        some (m, hdl) := by
  intro V H validType r sig hdl m hp
  constructor
  · rw [Handle, hp]
  · rw [mapGet, if_pos rfl]

/-- Witness for C2 amended at the concrete first registration. -/
theorem c2_witness :
    Handle abiTypeOk rEmptyNN c2sig1 1 =
      HandleResult.ok
        { rEmptyNN with handlers := (methodSelector c2m1, c2m1, 1) :: rEmptyNN.handlers }
    ∧ mapGet (methodSelector c2m1) ((methodSelector c2m1, c2m1, 1) :: rEmptyNN.handlers) =
      some (c2m1, 1) :=
  c2_last_registration_wins Nat Nat abiTypeOk rEmptyNN c2sig1 1 c2m1 (by decide)

/-! ## C4: default parameter names -/

def c4sig : List Char := "function foo(uint256, uint256) view returns (uint256)".toList

/-- Claim C4, counterexample: in
`function foo(uint256, uint256) view returns (uint256)` the unnamed output
parameter is the third parameter overall (zero-based position 2), so the claim
demands the default name `c`; the source assigns `a`, because the position
counter restarts for the outputs list. -/
theorem c4_counterexample :
    ParseFunctionGo abiTypeOk c4sig =
      .ok ⟨"foo".toList, "view".toList,
        [⟨"a".toList, "uint256".toList⟩, ⟨"b".toList, "uint256".toList⟩],
        [⟨"a".toList, "uint256".toList⟩]⟩
    ∧ "a".toList ≠ "c".toList :=
  ⟨by decide, by decide⟩

/-- Claim C4, amended: missing parameter names are assigned `a`, `b`, `c`, …
by zero-based position of the entry within its own parameter list, and the
position counter is reset between the inputs list and the outputs list: a
list of well-formed unnamed type tokens is parsed to arguments named by
position starting from `a` (first conjunct), and `ParseFunction` parses the
input capture and the output capture with two separate `parseParameters`
calls, each starting at position 0 (second conjunct). -/
theorem c4_default_names_reset_per_list (validType : List Char → Bool) :
    (∀ ts : List (List Char), (∀ e ∈ ts, UnnamedTok validType e) → ts.length ≤ 26 →
      parseParamsGo validType (joinComma ts) = .ok (defaultArgsFrom 0 ts))
    ∧ (∀ (s : List Char) (m : Method), ParseFunctionGo validType s = .ok m →
      ∃ fm, findMatch s = some fm
        ∧ parseParamsGo validType fm.input = .ok m.inputs
        ∧ parseParamsGo validType fm.output = .ok m.outputs
        ∧ m.name = fm.functionName ∧ m.mutability = fm.mutability) := by
  constructor
  · intro ts hwf hlen
    cases ts with
    | nil => rfl
    | cons t ts2 =>
      have hsplit : splitComma (joinComma (t :: ts2)) = t :: ts2 :=
        joinComma_split (t :: ts2) (by simp) (fun e he c hc => (hwf e he).2.1 c hc)
      rw [parseParamsGo, hsplit]
      have hwfB : ∀ e ∈ (t :: ts2), wfEntryB validType e = true :=
        fun e he => unnamedTok_wfEntryB validType (hwf e he)
      have hpre := parseEntries_prefix validType (t :: ts2) 0 [] hwfB (by omega)
      rw [List.append_nil] at hpre
      rw [hpre, show parseEntries validType (0 + (t :: ts2).length) [] = .ok [] from rfl]
      rw [prefixArgs_unnamed validType (t :: ts2) 0 hwf]
      simp
  · intro s m hp
    rw [ParseFunctionGo] at hp
    cases hf : findMatch s with
    | none =>
      rw [hf] at hp
      have hc : PFRes.err .invalidSignature = PFRes.ok m := hp
      exact absurd hc (by simp)
    | some fm =>
      rw [hf] at hp
      have hp2 : (match parseParamsGo validType fm.input with
          | PPRes.panic => PFRes.panic
          | PPRes.err e => PFRes.err e
          | PPRes.ok ins =>
            match parseParamsGo validType fm.output with
            | PPRes.panic => PFRes.panic
            | PPRes.err e => PFRes.err e
            | PPRes.ok outs =>
              PFRes.ok ⟨fm.functionName, fm.mutability, ins, outs⟩) =
          PFRes.ok m := hp
      cases hi : parseParamsGo validType fm.input with
      | panic =>
        rw [hi] at hp2
        have hc : PFRes.panic = PFRes.ok m := hp2
        exact absurd hc (by simp)
      | err e =>
        rw [hi] at hp2
        have hc : PFRes.err e = PFRes.ok m := hp2
        exact absurd hc (by simp)
      | ok ins =>
        rw [hi] at hp2
        have hp3 : (match parseParamsGo validType fm.output with
            | PPRes.panic => PFRes.panic
            | PPRes.err e => PFRes.err e
            | PPRes.ok outs =>
              PFRes.ok ⟨fm.functionName, fm.mutability, ins, outs⟩) =
            PFRes.ok m := hp2
        cases ho : parseParamsGo validType fm.output with
        | panic =>
          rw [ho] at hp3
          have hc : PFRes.panic = PFRes.ok m := hp3
          exact absurd hc (by simp)
        | err e =>
          rw [ho] at hp3
          have hc : PFRes.err e = PFRes.ok m := hp3
          exact absurd hc (by simp)
        | ok outs =>
          rw [ho] at hp3
          have hc : PFRes.ok (⟨fm.functionName, fm.mutability, ins, outs⟩ : Method) =
            PFRes.ok m := hp3
          injection hc with h2
          refine ⟨fm, rfl, ?_, ?_, ?_, ?_⟩
          · rw [← h2]; exact hi
          · rw [← h2]; exact ho
          · rw [← h2]
          · rw [← h2]

/-- Witness for C4 amended: two unnamed `uint256` inputs are named `a`, `b`
from position 0 of their list. -/
theorem c4_witness :
    parseParamsGo abiTypeOk (joinComma ["uint256".toList, "uint256".toList]) =
      .ok [⟨"a".toList, "uint256".toList⟩, ⟨"b".toList, "uint256".toList⟩] := by
  have h := (c4_default_names_reset_per_list abiTypeOk).1
    ["uint256".toList, "uint256".toList] (by decide) (by decide)
  rw [h]
  decide

/-! ## C6: grammar rejection -/

def c6sig0 : List Char := "function foo(uint256) view returns (uint256))".toList

def c6sig1 : List Char :=
  "function foo(uint256 x y, badtype z) view returns (uint256)".toList

/-- Claim C6, counterexample: `c6sig0` has unbalanced parentheses (two
opening, three closing) yet parses successfully, because Go's matching is
substring-based and ignores the trailing parenthesis; and `c6sig1` matches
the grammar and contains the unrecognized type token `badtype`, yet fails
with the parameter-format error for its first entry, not with
InvalidParameterType. -/
theorem c6_counterexample :
    c6sig0.count '(' ≠ c6sig0.count ')'
    ∧ ParseFunctionGo abiTypeOk c6sig0 =
        .ok ⟨"foo".toList, "view".toList, [⟨"a".toList, "uint256".toList⟩],
          [⟨"a".toList, "uint256".toList⟩]⟩
    ∧ abiTypeOk "badtype".toList = false
    ∧ ParseFunctionGo abiTypeOk c6sig1 =
        .err (.invalidParamFormat "uint256 x y".toList) :=
  ⟨by decide, by decide, by decide, by decide⟩

/-- Claim C6, amended: a string in which the keyword `function` or the keyword
`returns` does not occur fails with InvalidSignature (unbalanced parentheses
need not fail, since matching is substring-based); and a grammar-matching
signature whose input capture consists of well-formed unnamed entries followed
by a first offending entry whose single type token the external type system
rejects fails with InvalidParameterType carrying that token. -/
theorem c6_keyword_and_type_errors (validType : List Char → Bool) :
    (∀ s : List Char,
      (¬("function".toList <:+: s) ∨ ¬("returns".toList <:+: s)) →
      ParseFunctionGo validType s = .err .invalidSignature)
    ∧ (∀ (s : List Char) (fm : FnMatch) (ts : List (List Char)) (t : List Char)
        (rest : List (List Char)),
        findMatch s = some fm →
        fm.input = joinComma (ts ++ t :: rest) →
        (∀ e ∈ ts, UnnamedTok validType e) →
        t ≠ [] → (∀ c ∈ t, c ≠ ',') → trimSpace t = t → fields t = [t] →
        validType t = false →
        (∀ e ∈ rest, ∀ c ∈ e, c ≠ ',') →
        ts.length < 26 →
        ParseFunctionGo validType s = .err (.invalidParameterType t)) := by
  constructor
  · intro s hmiss
    cases hf : findMatch s with
    | none => rw [ParseFunctionGo, hf]
    | some fm =>
      obtain ⟨h1, h2⟩ := findMatch_keywords hf
      rcases hmiss with hm | hm
      · exact absurd h1 hm
      · exact absurd h2 hm
  · intro s fm ts t rest hf hinp hwf hne hnc htr hfld hvt hrestnc hlen
    have hallnc : ∀ e ∈ (ts ++ t :: rest), ∀ c ∈ e, c ≠ ',' := by
      intro e he c hc
      rcases List.mem_append.mp he with he1 | he2
      · exact (hwf e he1).2.1 c hc
      · rcases List.mem_cons.mp he2 with he3 | he3
        · exact (he3 ▸ hnc) c hc
        · exact hrestnc e he3 c hc
    have hsplit : splitComma fm.input = ts ++ t :: rest := by
      rw [hinp]
      exact joinComma_split _ (by simp) hallnc
    have hwfB : ∀ e ∈ ts, wfEntryB validType e = true :=
      fun e he => unnamedTok_wfEntryB validType (hwf e he)
    have hpre := parseEntries_prefix validType ts 0 (t :: rest) hwfB (by omega)
    have htne : ¬(trimSpace t = []) := by rw [htr]; exact hne
    have htail : parseEntries validType (0 + ts.length) (t :: rest) =
        .err (.invalidParameterType t) := by
      rw [parseEntries, if_neg htne, htr, hfld]
      have hnp : ¬(26 < 0 + ts.length + 1) := by omega
      simp [hnp, hvt]
      omega
    have hpp : parseParamsGo validType fm.input = .err (.invalidParameterType t) := by
      rw [parseParamsGo, hsplit, hpre, htail]
    rw [ParseFunctionGo, hf]
    have hfin : (match parseParamsGo validType fm.input with
        | PPRes.panic => PFRes.panic
        | PPRes.err e => PFRes.err e
        | PPRes.ok ins =>
          match parseParamsGo validType fm.output with
          | PPRes.panic => PFRes.panic
          | PPRes.err e => PFRes.err e
          | PPRes.ok outs =>
            PFRes.ok ⟨fm.functionName, fm.mutability, ins, outs⟩) =
        PFRes.err (.invalidParameterType t) := by
      rw [hpp]
    exact hfin

/-- Witness for C6 amended: `hello` lacks both keywords and fails with
InvalidSignature; `function foo(badtype) view returns ()` matches the grammar
and fails with InvalidParameterType carrying `badtype`. -/
theorem c6_witness :
    ParseFunctionGo abiTypeOk "hello".toList = .err .invalidSignature
    ∧ ParseFunctionGo abiTypeOk "function foo(badtype) view returns ()".toList =
        .err (.invalidParameterType "badtype".toList) := by
  constructor
  · exact (c6_keyword_and_type_errors abiTypeOk).1 "hello".toList (Or.inl (by decide))
  · exact (c6_keyword_and_type_errors abiTypeOk).2
      "function foo(badtype) view returns ()".toList
      ⟨"foo".toList, "badtype".toList, "view".toList, []⟩
      [] "badtype".toList []
      (by decide) rfl (by simp) (by decide) (by decide) (by decide) (by decide)
      (by decide) (by simp) (by decide)

/-! ## C10: the slice panic at position 26 -/

def c10str : List Char :=
  joinComma ("uint256 x y".toList :: List.replicate 26 "uint256".toList)

/-- Claim C10, counterexample: `c10str` has 27 entries with an unnamed entry
at zero-based position 26, but its first entry `uint256 x y` is malformed, so
`parseParameters` returns the format error before reaching position 26 — it
does not panic. -/
theorem c10_counterexample :
    (splitComma c10str).length = 27
    ∧ fields (trimSpace ((splitComma c10str).getD 26 [])) = ["uint256".toList]
    ∧ parseParamsGo abiTypeOk c10str = .err (.invalidParamFormat "uint256 x y".toList) :=
  ⟨by decide, by decide, by decide⟩

/-- Claim C10, amended: for every parameter list whose first 26 entries the
loop traverses cleanly (each trims to empty or is a valid one- or two-token
entry) and which has a further single-token (unnamed) entry at zero-based
position 26, `parseParameters` panics — Go's `paramNames[i : i+1]` slice is
out of range — instead of returning a parse error. -/
theorem c10_panic_past_position_26 :
    ∀ (validType : List Char → Bool) (entries1 : List (List Char)) (e : List Char)
      (entries2 : List (List Char)),
      entries1.length = 26 →
      (∀ x ∈ entries1, wfEntryB validType x = true ∧ ∀ c ∈ x, c ≠ ',') →
      trimSpace e ≠ [] →
      (∃ t, fields (trimSpace e) = [t]) →
      (∀ c ∈ e, c ≠ ',') →
      (∀ x ∈ entries2, ∀ c ∈ x, c ≠ ',') →
      parseParamsGo validType (joinComma (entries1 ++ e :: entries2)) = .panic := by
  intro validType entries1 e entries2 hlen hwf hne hex henc hrest
  obtain ⟨t, hft⟩ := hex
  have hallnc : ∀ x ∈ (entries1 ++ e :: entries2), ∀ c ∈ x, c ≠ ',' := by
    intro x hx c hc
    rcases List.mem_append.mp hx with hx1 | hx2
    · exact (hwf x hx1).2 c hc
    · rcases List.mem_cons.mp hx2 with hx3 | hx3
      · exact (hx3 ▸ henc) c hc
      · exact hrest x hx3 c hc
  have hsplit : splitComma (joinComma (entries1 ++ e :: entries2)) =
      entries1 ++ e :: entries2 :=
    joinComma_split _ (by simp) hallnc
  rw [parseParamsGo, hsplit]
  have hpre := parseEntries_prefix validType entries1 0 (e :: entries2)
    (fun x hx => (hwf x hx).1) (by omega)
  have htail : parseEntries validType (0 + entries1.length) (e :: entries2) = .panic := by
    rw [parseEntries, if_neg hne, hft, hlen]
    have hgt : 26 < 0 + 26 + 1 := by omega
    simp [hgt]
  rw [hpre, htail]

/-- Witness for C10 amended: 26 clean `uint256` entries followed by a 27th
unnamed `uint256` entry make `parseParameters` panic. -/
theorem c10_witness :
    parseParamsGo abiTypeOk
      (joinComma (List.replicate 26 "uint256".toList ++ ["uint256".toList])) = .panic := by
  apply c10_panic_past_position_26 abiTypeOk (List.replicate 26 "uint256".toList)
    "uint256".toList []
  · decide
  · decide
  · decide
  · exact ⟨"uint256".toList, by decide⟩
  · decide
  · intro x hx
    simp at hx

end Ccip
